import Mathlib

/-!
Shallow embedding of the Hebbian knowledge graph of
`src/core/knowledge_graph/knowledgeGraph.py`.

Modelling conventions:
* Python float values (confidence, learning rate, decay rate, strength bounds)
  are modelled by an arbitrary linear ordered field `α`; theorems instantiate
  `α` with `ℚ` or `ℝ`.  Float literals such as `0.1` are modelled by the exact
  rationals they denote in the source text (`1/10`).
* Python dicts are modelled by insertion-ordered association lists; dict
  assignment replaces the value in place and appends fresh keys at the end,
  matching CPython insertion-order semantics.
* `datetime.utcnow()` is modelled by an explicit `now : String` argument
  (timestamps are ISO-8601 strings in the source and are only stored and
  compared lexicographically).
* `uuid.uuid4()` is modelled by explicit fresh-id arguments supplied by the
  caller.
* The repository contains two decay variants: the wall-clock variant in
  `src/core/knowledge_graph/knowledgeGraph.py` and a cycle-counter variant
  whose callers and tests survive in the repository
  (`increment_cycle_counters` in `src/core/orchestrator/index.py`,
  `cycles_since_last_activation` in `src/tests/test_hebbian_plasticity.py`)
  while its implementation does not.  The specification declares the
  cycle-counter variant canonical; the fields and operations that belong only
  to that variant are modelled from the spec and marked as such below.
* `math.exp` is modelled by a function argument `expn : α → α`; theorems about
  the exact decay amount instantiate it with `Real.exp`.
-/

namespace Kairos

/-- Entity node: `Entity.__init__` stores an id, a label, a type tag and a
property map. -/
structure Entity where
  id : String
  label : String
  type_ : String
  properties : List (String × String)
deriving DecidableEq, Repr

/-- Relation edge over a numeric type `α` standing for Python floats.  Fields
follow `Relation.__init__`; `cycles_since_last_activation` is the cycle-counter
field of the canonical decay variant.  Modelled from the spec: the relation
record carries `cycles_since_last_activation: optional non-negative integer`. -/
structure Relation (α : Type) where
  subject_id : String
  predicate : String
  object_id : String
  confidence : α
  created_at : String
  source : Option String
  version : Option String
  metadata : List (String × String)
  activation_count : ℕ
  last_activated : Option String
  cycles_since_last_activation : Option ℕ
deriving DecidableEq, Repr

/-- Hebbian configuration dict (`hebbian_config`). -/
structure HebbianConfig (α : Type) where
  learning_rate : α
  decay_rate : α
  emergence_threshold : ℕ
  min_strength : α
  max_strength : α
deriving DecidableEq, Repr

/-- Default configuration from `KnowledgeGraph.__init__`:
learning_rate 0.1, decay_rate 0.05, emergence_threshold 3, min_strength 0.1,
max_strength 1.0. -/
def defaultConfig (α : Type) [LinearOrderedField α] : HebbianConfig α :=
  { learning_rate := 1 / 10
    decay_rate := 1 / 20
    emergence_threshold := 3
    min_strength := 1 / 10
    max_strength := 1 }

/-- Knowledge graph state: entity store (dict values in insertion order),
relation list, label index, configuration, activation window and co-activation
counters. -/
structure KG (α : Type) where
  entities : List Entity
  relations : List (Relation α)
  label_to_id : List (String × String)
  hebbian_config : HebbianConfig α
  activation_window : List (String × List String)
  coactivation_counts : List ((String × String) × ℕ)
deriving DecidableEq, Repr

/-- Fresh store with a given configuration (`KnowledgeGraph.__init__`). -/
def emptyKG (α : Type) [LinearOrderedField α] (cfg : HebbianConfig α) : KG α :=
  { entities := []
    relations := []
    label_to_id := []
    hebbian_config := cfg
    activation_window := []
    coactivation_counts := [] }

/-- Python truthiness of an optional string: `None` and the empty string are
falsy. -/
def truthyS (o : Option String) : Bool :=
  match o with
  | none => false
  | some s => !s.isEmpty

/-- Association-list lookup, the first binding wins (dict keys are unique in
all reachable states). -/
def alookup {β : Type} (l : List (String × β)) (k : String) : Option β :=
  match l.find? (fun kv => kv.1 == k) with
  | some kv => some kv.2
  | none => none

/-- Dict assignment `d[k] = v` on an insertion-ordered association list:
replaces in place if the key exists, appends otherwise. -/
def dictInsert {β : Type} (l : List (String × β)) (k : String) (v : β) :
    List (String × β) :=
  if l.any (fun kv => kv.1 == k) then
    l.map (fun kv => if kv.1 == k then (k, v) else kv)
  else l ++ [(k, v)]

variable {α : Type} [LinearOrderedField α]

/-- Embedding of `KnowledgeGraph.add_entity`: returns the existing id when the label is
already present, otherwise registers a fresh entity under `freshId`. -/
def add_entity (freshId : String) (label type_ : String)
    (properties : List (String × String)) (g : KG α) : String × KG α :=
  match alookup g.label_to_id label with
  | some i => (i, g)
  | none =>
      (freshId,
        { g with
            entities := g.entities ++ [⟨freshId, label, type_, properties⟩]
            label_to_id := g.label_to_id ++ [(label, freshId)] })

/-- Embedding of `KnowledgeGraph.add_relation`: resolves or creates both entities, then
appends a relation with the supplied confidence, `activation_count = 0` and
`last_activated = None`. -/
def add_relation (fresh1 fresh2 now : String)
    (subject_label predicate object_label : String)
    (subject_type object_type : String) (confidence : α)
    (source version : Option String) (g : KG α) : KG α :=
  let r1 := add_entity fresh1 subject_label subject_type [] g
  let r2 := add_entity fresh2 object_label object_type [] r1.2
  { r2.2 with
      relations := r2.2.relations ++
        [{ subject_id := r1.1
           predicate := predicate
           object_id := r2.1
           confidence := confidence
           created_at := now
           source := source
           version := version
           metadata := []
           activation_count := 0
           last_activated := none
           cycles_since_last_activation := none }] }

/-- Exact-triple match used by `activate_relation` and `get_edge_strength`. -/
def matchesTriple (sid p oid : String) (r : Relation α) : Bool :=
  r.subject_id == sid && r.predicate == p && r.object_id == oid

/-- Asymptotic strengthening from `activate_relation`:
`min(max_strength, confidence + learning_rate * (max_strength - confidence))`. -/
def strengthenVal (cfg : HebbianConfig α) (c : α) : α :=
  min cfg.max_strength (c + cfg.learning_rate * (cfg.max_strength - c))

/-- Per-relation effect of a successful activation: strengthen confidence,
bump the activation count, stamp `last_activated`.  Modelled from the spec:
the canonical variant additionally resets `cycles_since_last_activation`
to 0. -/
def strengthenRel (cfg : HebbianConfig α) (now : String) (r : Relation α) :
    Relation α :=
  { r with
      confidence := strengthenVal cfg r.confidence
      activation_count := r.activation_count + 1
      last_activated := some now
      cycles_since_last_activation := some 0 }

/-- The for-loop with break in `activate_relation`: rewrite the first element
satisfying the predicate, leave everything else alone. -/
def updateFirst {β : Type} (p : β → Bool) (f : β → β) : List β → List β
  | [] => []
  | x :: xs => if p x then f x :: xs else x :: updateFirst p f xs

/-- Embedding of `KnowledgeGraph.activate_relation`: no-op unless both labels resolve to
truthy ids; otherwise strengthens the first relation matching the exact
triple. -/
def activate_relation (now : String)
    (subject_label predicate object_label : String) (g : KG α) : KG α :=
  let sid := alookup g.label_to_id subject_label
  let oid := alookup g.label_to_id object_label
  if !truthyS sid || !truthyS oid then g
  else
    { g with
        relations :=
          updateFirst (matchesTriple (sid.getD "") predicate (oid.getD ""))
            (strengthenRel g.hebbian_config now) g.relations }

/-- Embedding of `KnowledgeGraph.get_edge_strength`: confidence of the first matching
relation, 0.0 when an entity or the relation is missing. -/
def get_edge_strength (subject_label predicate object_label : String)
    (g : KG α) : α :=
  let sid := alookup g.label_to_id subject_label
  let oid := alookup g.label_to_id object_label
  if !truthyS sid || !truthyS oid then 0
  else
    match g.relations.find?
        (matchesTriple (sid.getD "") predicate (oid.getD "")) with
    | some r => r.confidence
    | none => 0

/-- Canonical pair ordering from `tuple(sorted([e1, e2]))`; Python sorts two
strings by putting the smaller first, keeping order when not greater. -/
def sortPair (x y : String) : String × String :=
  if y < x then (y, x) else (x, y)

/-- Counter bump `self.coactivation_counts[pair] += 1` on a defaultdict:
increments in place, inserting the pair with count 1 when absent. -/
def bumpCount (l : List ((String × String) × ℕ)) (p : String × String) :
    List ((String × String) × ℕ) :=
  if l.any (fun kv => kv.1 == p) then
    l.map (fun kv => if kv.1 == p then (kv.1, kv.2 + 1) else kv)
  else l ++ [(p, 1)]

/-- All unordered pairs from the nested loop
`for i, e1 in enumerate(entity_ids): for e2 in entity_ids[i+1:]`, each
canonicalized by `sortPair`. -/
def allPairs : List String → List (String × String)
  | [] => []
  | x :: xs => xs.map (sortPair x) ++ allPairs xs

/-- Embedding of `KnowledgeGraph.activate_entities`: resolve the labels, no-op when fewer
than two resolve, otherwise log the activation (window capped at the last 100
entries) and bump every pairwise co-activation counter. -/
def activate_entities (now : String) (entity_labels : List String) (g : KG α) :
    KG α :=
  let entity_ids := entity_labels.filterMap (alookup g.label_to_id)
  if entity_ids.length < 2 then g
  else
    let window := g.activation_window ++ [(now, entity_ids)]
    { g with
        activation_window :=
          if window.length > 100 then window.drop (window.length - 100)
          else window
        coactivation_counts :=
          (allPairs entity_ids).foldl bumpCount g.coactivation_counts }

/-- Modelled from the spec: `incrementCycleCounters` of the canonical
cycle-counter decay variant (its implementation is absent from src/; the
orchestrator calls it and the tests exercise the counter).  It increments
`cycles_since_last_activation` for every relation that has one. -/
def increment_cycle_counters (g : KG α) : KG α :=
  { g with
      relations := g.relations.map (fun r =>
        match r.cycles_since_last_activation with
        | some c => { r with cycles_since_last_activation := some (c + 1) }
        | none => r) }

/-- Existence check of `form_emergent_connections`: some relation already
connects the two ids in either direction, under any predicate. -/
def connectsB (a b : String) (r : Relation α) : Bool :=
  (r.subject_id == a && r.object_id == b) ||
    (r.subject_id == b && r.object_id == a)

/-- Emergent relation created by `form_emergent_connections`: predicate
`"co_occurs_with"`, confidence `min(0.5, count * 0.1)`, source
`"hebbian_emergence"`, version `"emergent"`. -/
def mkEmergent (now : String) (a b : String) (count : ℕ) : Relation α :=
  { subject_id := a
    predicate := "co_occurs_with"
    object_id := b
    confidence := min (1 / 2 : α) ((count : α) * (1 / 10))
    created_at := now
    source := some "hebbian_emergence"
    version := some "emergent"
    metadata := []
    activation_count := 0
    last_activated := none
    cycles_since_last_activation := none }

/-- Loop body of `form_emergent_connections`: walk the co-activation counters
in insertion order, appending an emergent relation for every pair at or above
the threshold that is not yet connected; the boolean records whether any edge
was created (`new_edges` nonempty). -/
def feLoop (now : String) (cfg : HebbianConfig α) :
    List ((String × String) × ℕ) → List (Relation α) →
      List (Relation α) × Bool
  | [], rels => (rels, false)
  | (p, count) :: rest, rels =>
    if decide (cfg.emergence_threshold ≤ count) &&
        !(rels.any (connectsB p.1 p.2)) then
      let res := feLoop now cfg rest (rels ++ [mkEmergent now p.1 p.2 count])
      (res.1, true)
    else feLoop now cfg rest rels

/-- Embedding of `KnowledgeGraph.form_emergent_connections`: run the loop, then clear all
co-activation counters exactly when at least one edge was created.  The
returned label list is modelled by the boolean of `feLoop` (the source only
branches on its nonemptiness). -/
def form_emergent_connections (now : String) (g : KG α) : KG α :=
  let res := feLoop now g.hebbian_config g.coactivation_counts g.relations
  { g with
      relations := res.1
      coactivation_counts := if res.2 then [] else g.coactivation_counts }

/-- Per-relation decay pass.  Modelled from the spec: the canonical variant
decays every relation with `last_activated` set and a positive cycle counter
by `decay_rate * (1 - e^(-cycles / 30))`, subtracting without flooring (the
wall-clock variant in src/ is identical with days of inactivity in place of
the counter).  `expn` stands for `math.exp`. -/
def decayRel (expn : α → α) (cfg : HebbianConfig α) (r : Relation α) :
    Relation α :=
  match r.last_activated, r.cycles_since_last_activation with
  | some _, some c =>
      if 0 < c then
        { r with
            confidence :=
              r.confidence - cfg.decay_rate * (1 - expn (-(c : α) / 30)) }
      else r
  | _, _ => r

/-- Embedding of `KnowledgeGraph.apply_temporal_decay`: decay pass followed by pruning,
which keeps a relation when `confidence >= min_strength` or it was never
activated. -/
def apply_temporal_decay (expn : α → α) (g : KG α) : KG α :=
  { g with
      relations :=
        (g.relations.map (decayRel expn g.hebbian_config)).filter
          (fun r =>
            decide (g.hebbian_config.min_strength ≤ r.confidence) ||
              r.last_activated.isNone) }

/-- Entity-store lookup `self.entities[id]` used by `query`.  Python raises a
KeyError on a dangling id; the theorems below only concern stores where the
lookup is irrelevant or resolves, so a default entity stands in for the
exception. -/
def entityOf (g : KG α) (id : String) : Entity :=
  (g.entities.find? (fun e => e.id == id)).getD ⟨"", "", "", []⟩

/-- Python truthiness of an optional float: `None` and `0.0` are falsy. -/
def truthyQ (o : Option α) : Bool :=
  match o with
  | none => false
  | some x => decide (x ≠ 0)

/-- Python truthiness of an optional dict: `None` and the empty dict are
falsy. -/
def truthyM (o : Option (List (String × String))) : Bool :=
  match o with
  | none => false
  | some l => !l.isEmpty

/-- Guard `if filt and value != filt: continue` for a string filter. -/
def failsStr (filt : Option String) (v : String) : Bool :=
  truthyS filt && (v != filt.getD "")

/-- Loop body of `KnowledgeGraph.query` for one relation: each `continue`
becomes `none`, each append becomes `some`.  The metadata block reproduces the
for/else: append only when every filter key maps to an equal value. -/
def queryStep (g : KG α) (subject predicate object_ : Option String)
    (subject_type object_type : Option String) (min_confidence : Option α)
    (after before : Option String)
    (metadata_filter : Option (List (String × String)))
    (r : Relation α) : Option (Entity × Relation α × Entity) :=
  let subj := entityOf g r.subject_id
  let obj := entityOf g r.object_id
  if failsStr subject subj.label then none
  else if failsStr subject_type subj.type_ then none
  else if failsStr object_ obj.label then none
  else if failsStr object_type obj.type_ then none
  else if failsStr predicate r.predicate then none
  else if truthyQ min_confidence &&
      decide (r.confidence < min_confidence.getD 0) then none
  else if truthyS after && decide (r.created_at < after.getD "") then none
  else if truthyS before && decide (before.getD "" < r.created_at) then none
  else if truthyM metadata_filter then
    if (metadata_filter.getD []).all
        (fun kv => alookup r.metadata kv.1 == some kv.2) then
      some (subj, r, obj)
    else none
  else some (subj, r, obj)

/-- Embedding of `KnowledgeGraph.query`: linear scan over the relations in insertion
order. -/
def query (g : KG α) (subject predicate object_ : Option String)
    (subject_type object_type : Option String) (min_confidence : Option α)
    (after before : Option String)
    (metadata_filter : Option (List (String × String))) :
    List (Entity × Relation α × Entity) :=
  g.relations.filterMap
    (queryStep g subject predicate object_ subject_type object_type
      min_confidence after before metadata_filter)

/-- Persisted JSON document shape from `save_to_json` / `load_from_json`.
The per-entity and per-relation dicts of `to_dict` / `from_dict` write and
read back exactly the structure fields, so they are modelled by the structures
themselves; the co-activation counters are serialized under composite string
keys, which is the only lossy-looking step and is modelled exactly. -/
structure KGDoc (α : Type) where
  entities : List Entity
  relations : List (Relation α)
  hebbian_config : HebbianConfig α
  coactivation_counts : List (String × ℕ)
deriving DecidableEq, Repr

/-- Composite counter key from `save_to_json`: `f"{k[0]}_{k[1]}"`. -/
def joinKey (p : String × String) : String :=
  p.1 ++ "_" ++ p.2

/-- Embedding of `KnowledgeGraph.save_to_json`: dump entities, relations, configuration and
the counters under composite keys. -/
def save_to_json (g : KG α) : KGDoc α :=
  { entities := g.entities
    relations := g.relations
    hebbian_config := g.hebbian_config
    coactivation_counts :=
      g.coactivation_counts.map (fun kv => (joinKey kv.1, kv.2)) }

/-- Python `str.split("_")` on the character list of a string: splits at every
underscore, keeping empty pieces. -/
def splitUnderscore : List Char → List (List Char)
  | [] => [[]]
  | c :: rest =>
    let r := splitUnderscore rest
    if c = '_' then [] :: r
    else
      match r with
      | h :: t => (c :: h) :: t
      | [] => [[c]]

/-- Counter-key parser from `load_from_json`: `e1, e2 = key.split("_")`
succeeds exactly when the split yields two pieces (Python raises a ValueError
otherwise). -/
def parseKey (k : String) : Option (String × String) :=
  match splitUnderscore k.data with
  | [a, b] => some (⟨a⟩, ⟨b⟩)
  | _ => none

/-- Counter restoration loop of `load_from_json`, in file order. -/
def parseCounts : List (String × ℕ) → Option (List ((String × String) × ℕ))
  | [] => some []
  | (k, v) :: rest =>
    match parseKey k, parseCounts rest with
    | some p, some r => some ((p, v) :: r)
    | _, _ => none

/-- Entity-dict rebuild `self.entities[ent.id] = ent` of `load_from_json`. -/
def entInsert (l : List Entity) (e : Entity) : List Entity :=
  if l.any (fun x => x.id == e.id) then
    l.map (fun x => if x.id == e.id then e else x)
  else l ++ [e]

/-- Embedding of `KnowledgeGraph.load_from_json` into a fresh store: rebuild the entity
dict and label index, append the relations, take the persisted configuration
(the merge into the defaults overwrites every field the document carries, and
the document always carries all five), and restore the counters.  `none`
models the ValueError raised on a counter key that does not split in two. -/
def load_from_json (doc : KGDoc α) : Option (KG α) :=
  match parseCounts doc.coactivation_counts with
  | none => none
  | some counts =>
      some
        { entities := doc.entities.foldl entInsert []
          relations := doc.relations
          label_to_id :=
            doc.entities.foldl (fun acc e => dictInsert acc e.label e.id) []
          hebbian_config := doc.hebbian_config
          activation_window := []
          coactivation_counts := counts }

/-! Helper lemmas shared by the claim theorems. -/

/-- Decay never touches `last_activated`. -/
theorem decayRel_last_activated (expn : α → α) (cfg : HebbianConfig α)
    (r : Relation α) : (decayRel expn cfg r).last_activated = r.last_activated := by
  unfold decayRel
  rcases hla : r.last_activated with _ | t
  · rcases hc : r.cycles_since_last_activation with _ | c <;> simp [hla]
  · rcases hc : r.cycles_since_last_activation with _ | c
    · simp [hla]
    · by_cases hpos : 0 < c <;> simp [hpos, hla]

/-- A never-activated relation is left untouched by the decay pass. -/
theorem decayRel_of_never_activated (expn : α → α) (cfg : HebbianConfig α)
    (r : Relation α) (h : r.last_activated = none) : decayRel expn cfg r = r := by
  unfold decayRel
  rcases hc : r.cycles_since_last_activation with _ | c <;> simp [h, hc]

/-- Claim C1.  For every relation with last_activated set and a positive cycle
counter, the decay pass subtracts exactly
decay_rate * (1 - e^(-cycles_since_last_activation / 30)) from its confidence
with no flooring; a relation whose counter is 0 loses nothing; and
apply_temporal_decay is exactly this per-relation pass followed by pruning. -/
theorem temporal_decay_exact_subtraction (cfg : HebbianConfig ℝ)
    (r : Relation ℝ) :
    (∀ t c, r.last_activated = some t →
      r.cycles_since_last_activation = some c → 0 < c →
      decayRel Real.exp cfg r =
        { r with confidence :=
            r.confidence - cfg.decay_rate * (1 - Real.exp (-(c : ℝ) / 30)) })
    ∧ (r.cycles_since_last_activation = some 0 → decayRel Real.exp cfg r = r)
    ∧ ∀ g : KG ℝ,
        (apply_temporal_decay Real.exp g).relations =
          (g.relations.map (decayRel Real.exp g.hebbian_config)).filter
            (fun x =>
              decide (g.hebbian_config.min_strength ≤ x.confidence) ||
                x.last_activated.isNone) := by
  refine ⟨?_, ?_, fun g => rfl⟩
  · intro t c ht hc hpos
    unfold decayRel
    simp [ht, hc, hpos]
  · intro h
    unfold decayRel
    rcases hla : r.last_activated with _ | t <;> simp [hla, h]

/-- Witness for claim C1 at the spec scenario: confidence 0.9, activated, 30
cycles inactive, default decay rate.  The relation literal is inlined because
a concrete real-valued store has no executable representation. -/
theorem temporal_decay_exact_subtraction_witness :
    decayRel Real.exp (defaultConfig ℝ)
        { subject_id := "a", predicate := "p", object_id := "b",
          confidence := 9 / 10, created_at := "t0", source := none,
          version := none, metadata := [], activation_count := 1,
          last_activated := some "t1",
          cycles_since_last_activation := some 30 } =
      { subject_id := "a", predicate := "p", object_id := "b",
        confidence :=
          9 / 10 -
            (defaultConfig ℝ).decay_rate *
              (1 - Real.exp (-((30 : ℕ) : ℝ) / 30)),
        created_at := "t0", source := none, version := none, metadata := [],
        activation_count := 1, last_activated := some "t1",
        cycles_since_last_activation := some 30 } :=
  (temporal_decay_exact_subtraction (defaultConfig ℝ) _).1 "t1" 30 rfl rfl
    (by decide)

/-- Claim C3.  A relation present before apply_temporal_decay is absent
afterwards exactly when its post-decay confidence is below min_strength and it
had been activated; never-activated relations are neither decayed nor
removed. -/
theorem decay_prune_membership (expn : α → α) (g : KG α) (r : Relation α)
    (hr : r ∈ g.relations) :
    (decayRel expn g.hebbian_config r ∉ (apply_temporal_decay expn g).relations ↔
      (decayRel expn g.hebbian_config r).confidence < g.hebbian_config.min_strength
        ∧ r.last_activated ≠ none)
    ∧ (r.last_activated = none →
        decayRel expn g.hebbian_config r = r ∧
          r ∈ (apply_temporal_decay expn g).relations) := by
  have hmem : decayRel expn g.hebbian_config r ∈
      g.relations.map (decayRel expn g.hebbian_config) :=
    List.mem_map_of_mem _ hr
  constructor
  · rw [apply_temporal_decay]
    simp only [List.mem_filter, hmem, true_and, not_and, Bool.or_eq_true,
      decide_eq_true_eq, Option.isNone_iff_eq_none, decayRel_last_activated,
      not_or, not_le, ne_eq]
  · intro hla
    have hid : decayRel expn g.hebbian_config r = r :=
      decayRel_of_never_activated expn g.hebbian_config r hla
    refine ⟨hid, ?_⟩
    rw [apply_temporal_decay]
    simp only [List.mem_filter]
    refine ⟨hid ▸ hmem, ?_⟩
    simp [hla]

/-- Activated weak relation of the C3 witness store. -/
def rC3a : Relation ℚ :=
  { subject_id := "i1"
    predicate := "p"
    object_id := "i2"
    confidence := 1 / 100
    created_at := "t0"
    source := none
    version := none
    metadata := []
    activation_count := 3
    last_activated := some "t1"
    cycles_since_last_activation := some 4 }

/-- Never-activated weak relation of the C3 witness store. -/
def rC3b : Relation ℚ :=
  { subject_id := "i1"
    predicate := "q"
    object_id := "i2"
    confidence := 1 / 100
    created_at := "t0"
    source := none
    version := none
    metadata := []
    activation_count := 0
    last_activated := none
    cycles_since_last_activation := none }

/-- Concrete store used to witness claim C3: one weak activated relation and
one weak never-activated relation. -/
def gC3 : KG ℚ :=
  { entities := []
    relations := [rC3a, rC3b]
    label_to_id := []
    hebbian_config := defaultConfig ℚ
    activation_window := []
    coactivation_counts := [] }

/-- Witness for claim C3: in gC3 the weak never-activated relation survives
the decay pass untouched. -/
theorem decay_prune_membership_witness :
    decayRel (fun x => x) gC3.hebbian_config rC3b = rC3b ∧
      rC3b ∈ (apply_temporal_decay (fun x => x) gC3).relations :=
  (decay_prune_membership (fun x => x) gC3 rC3b (by simp [gC3])).2 rfl

/-- Claim C9.  activate_relation with an unknown subject, an unknown object,
or no matching relation, and activate_entities with fewer than two resolvable
labels, leave the store unchanged. -/
theorem activation_noops (g : KG α) (now s p o : String)
    (labels : List String) :
    (alookup g.label_to_id s = none → activate_relation now s p o g = g)
    ∧ (alookup g.label_to_id o = none → activate_relation now s p o g = g)
    ∧ (∀ sid oid, alookup g.label_to_id s = some sid →
        alookup g.label_to_id o = some oid →
        (∀ x ∈ g.relations, matchesTriple sid p oid x = false) →
        activate_relation now s p o g = g)
    ∧ ((labels.filterMap (alookup g.label_to_id)).length < 2 →
        activate_entities now labels g = g) := by
  have hupd : ∀ (q : Relation α → Bool) (f : Relation α → Relation α)
      (l : List (Relation α)), (∀ x ∈ l, q x = false) → updateFirst q f l = l := by
    intro q f l
    induction l with
    | nil => intro _; rfl
    | cons x xs ih =>
      intro h
      rw [updateFirst, h x (by simp), ih (fun y hy => h y (by simp [hy]))]
      simp
  refine ⟨?_, ?_, ?_, ?_⟩
  · intro hs
    rw [activate_relation, hs]
    simp [truthyS]
  · intro ho
    rw [activate_relation, ho]
    rcases alookup g.label_to_id s with _ | sid <;> simp [truthyS]
  · intro sid oid hs ho hnone
    rw [activate_relation, hs, ho]
    by_cases hs0 : sid.isEmpty
    · simp [truthyS, hs0]
    · by_cases ho0 : oid.isEmpty
      · simp [truthyS, hs0, ho0]
      · simp only [truthyS, hs0, ho0, Bool.not_false, Bool.not_true,
          Bool.false_or, Bool.or_false, if_neg, Option.getD_some]
        rw [if_neg (by simp)]
        rw [hupd _ _ _ hnone]
  · intro hlen
    rw [activate_entities]
    simp [hlen]

/-- Relation of the C9 witness store. -/
def rC9 : Relation ℚ :=
  { subject_id := "i1"
    predicate := "p"
    object_id := "i2"
    confidence := 1
    created_at := "t0"
    source := none
    version := none
    metadata := []
    activation_count := 0
    last_activated := none
    cycles_since_last_activation := none }

/-- Store used to witness claim C9: labels A and B, one relation A -p-> B. -/
def gC9 : KG ℚ :=
  { entities := [⟨"i1", "A", "T", []⟩, ⟨"i2", "B", "T", []⟩]
    relations := [rC9]
    label_to_id := [("A", "i1"), ("B", "i2")]
    hebbian_config := defaultConfig ℚ
    activation_window := []
    coactivation_counts := [] }

/-- Witness for claim C9: a store with one entity and one relation absorbs an
unknown-subject activation, an unknown-object activation, a non-matching
activation, and an under-resolved entity activation. -/
theorem activation_noops_witness :
    (activate_relation "t" "X" "p" "B" gC9 = gC9)
    ∧ (activate_relation "t" "A" "p" "Y" gC9 = gC9)
    ∧ (activate_relation "t" "A" "zzz" "B" gC9 = gC9)
    ∧ (activate_entities "t" ["A", "unknown"] gC9 = gC9) := by
  refine ⟨(activation_noops gC9 "t" "X" "p" "B" []).1 (by decide),
    (activation_noops gC9 "t" "A" "p" "Y" []).2.1 (by decide),
    (activation_noops gC9 "t" "A" "zzz" "B" []).2.2.1 "i1" "i2" (by decide)
      (by decide) ?_,
    (activation_noops gC9 "t" "A" "p" "B" ["A", "unknown"]).2.2.2 (by decide)⟩
  intro x hx
  have : x = rC9 := by
    have := hx
    simp only [gC9] at this
    simpa using this
  subst this
  decide

/-- updateFirst walks past a prefix of non-matching elements and rewrites the
first match, leaving the tail untouched. -/
theorem updateFirst_append {β : Type} (q : β → Bool) (f : β → β)
    (pre post : List β) (r : β) (hpre : ∀ x ∈ pre, q x = false)
    (hr : q r = true) :
    updateFirst q f (pre ++ r :: post) = pre ++ f r :: post := by
  induction pre with
  | nil => simp [updateFirst, hr]
  | cons x xs ih =>
    have hx : q x = false := hpre x (by simp)
    simp only [List.cons_append, updateFirst, hx]
    simp only [Bool.false_eq_true, if_false, List.cons.injEq, true_and]
    exact ih (fun y hy => hpre y (by simp [hy]))

/-- Claim C2.  When both labels resolve and a relation matches the triple, the
first match (in insertion order) gets confidence
min(max_strength, confidence + learning_rate * (max_strength - confidence)),
activation_count + 1, last_activated stamped with the current time and the
cycle counter reset to 0, while every other relation and every other store
component is unchanged. -/
theorem activate_relation_first_match (g : KG α) (now s p o sid oid : String)
    (hs : alookup g.label_to_id s = some sid) (hs0 : sid ≠ "")
    (ho : alookup g.label_to_id o = some oid) (ho0 : oid ≠ "")
    (pre post : List (Relation α)) (r : Relation α)
    (hrel : g.relations = pre ++ r :: post)
    (hpre : ∀ x ∈ pre, matchesTriple sid p oid x = false)
    (hr : matchesTriple sid p oid r = true) :
    activate_relation now s p o g =
      { g with
          relations := pre ++
            { r with
                confidence := min g.hebbian_config.max_strength
                  (r.confidence + g.hebbian_config.learning_rate *
                    (g.hebbian_config.max_strength - r.confidence))
                activation_count := r.activation_count + 1
                last_activated := some now
                cycles_since_last_activation := some 0 } :: post } := by
  have hs1 : sid.isEmpty = false := by
    rcases h : sid.isEmpty with _ | _
    · rfl
    · exact absurd ((String.isEmpty_iff sid).mp h) hs0
  have ho1 : oid.isEmpty = false := by
    rcases h : oid.isEmpty with _ | _
    · rfl
    · exact absurd ((String.isEmpty_iff oid).mp h) ho0
  rw [activate_relation, hs, ho]
  simp only [truthyS, hs1, ho1, Bool.not_false, Bool.not_true, Bool.false_or,
    Bool.or_false, Option.getD_some]
  rw [if_neg (by simp)]
  rw [hrel, updateFirst_append _ _ pre post r hpre hr]
  rfl

/-- Witness for claim C2: in the C9 store, activating the matching triple
strengthens exactly the stored relation. -/
theorem activate_relation_first_match_witness :
    activate_relation "t9" "A" "p" "B" gC9 =
      { gC9 with
          relations :=
            [{ rC9 with
                confidence := min gC9.hebbian_config.max_strength
                  (rC9.confidence + gC9.hebbian_config.learning_rate *
                    (gC9.hebbian_config.max_strength - rC9.confidence))
                activation_count := rC9.activation_count + 1
                last_activated := some "t9"
                cycles_since_last_activation := some 0 }] } :=
  activate_relation_first_match gC9 "t9" "A" "p" "B" "i1" "i2" (by decide)
    (by decide) (by decide) (by decide) [] [] rC9 rfl (by simp) (by decide)

/-- The empty string is empty; recorded as a simp-usable equation. -/
theorem empty_string_isEmpty : ("" : String).isEmpty = true := by decide

/-- The nested guard chain of queryStep collapses to one conjunctive
predicate: a relation is returned exactly when it passes every truthy filter,
the metadata filter included. -/
theorem queryStep_eq_guard (g : KG α)
    (subject predicate object_ subject_type object_type : Option String)
    (min_confidence : Option α) (after before : Option String)
    (metadata_filter : Option (List (String × String))) (r : Relation α) :
    queryStep g subject predicate object_ subject_type object_type
        min_confidence after before metadata_filter r =
      (if (!failsStr subject (entityOf g r.subject_id).label &&
          !failsStr subject_type (entityOf g r.subject_id).type_ &&
          !failsStr object_ (entityOf g r.object_id).label &&
          !failsStr object_type (entityOf g r.object_id).type_ &&
          !failsStr predicate r.predicate &&
          !(truthyQ min_confidence &&
            decide (r.confidence < min_confidence.getD 0)) &&
          !(truthyS after && decide (r.created_at < after.getD "")) &&
          !(truthyS before && decide (before.getD "" < r.created_at)) &&
          (!truthyM metadata_filter ||
            (metadata_filter.getD []).all
              (fun kv => alookup r.metadata kv.1 == some kv.2)) : Bool) then
        some (entityOf g r.subject_id, r, entityOf g r.object_id)
      else none) := by
  unfold queryStep
  rcases h1 : failsStr subject (entityOf g r.subject_id).label with _ | _ <;>
  rcases h2 : failsStr subject_type (entityOf g r.subject_id).type_ with _ | _ <;>
  rcases h3 : failsStr object_ (entityOf g r.object_id).label with _ | _ <;>
  rcases h4 : failsStr object_type (entityOf g r.object_id).type_ with _ | _ <;>
  rcases h5 : failsStr predicate r.predicate with _ | _ <;>
  rcases h6 : truthyQ min_confidence &&
      decide (r.confidence < min_confidence.getD 0) with _ | _ <;>
  rcases h7 : truthyS after && decide (r.created_at < after.getD "") with _ | _ <;>
  rcases h8 : truthyS before && decide (before.getD "" < r.created_at) with _ | _ <;>
  rcases h9 : truthyM metadata_filter with _ | _ <;>
    simp only [h1, h2, h3, h4, h5, h6, h7, h8, h9, Bool.not_true,
      Bool.not_false, Bool.false_and, Bool.true_and, Bool.and_false,
      Bool.and_true, Bool.false_or, Bool.true_or, Bool.or_true,
      Bool.or_false] <;>
    simp

/-- filterMap of an if-then-some guard is filter-then-map. -/
theorem filterMap_guard {β γ : Type} (f : β → Option γ) (p : β → Bool)
    (tr : β → γ) (hf : ∀ x, f x = if p x then some (tr x) else none)
    (l : List β) : l.filterMap f = (l.filter p).map tr := by
  induction l with
  | nil => simp
  | cons x xs ih =>
    rw [List.filterMap_cons, List.filter_cons, hf x]
    by_cases h : p x <;> simp [h, ih]

/-- Claim C5.  For every combination of filter arguments, query returns, in
relation-insertion order, exactly the triples of the relations passing every
supplied filter conjunctively, metadata included. -/
theorem query_conjunctive_filters (g : KG α)
    (subject predicate object_ subject_type object_type : Option String)
    (min_confidence : Option α) (after before : Option String)
    (metadata_filter : Option (List (String × String))) :
    query g subject predicate object_ subject_type object_type min_confidence
        after before metadata_filter =
      (g.relations.filter (fun r =>
        !failsStr subject (entityOf g r.subject_id).label &&
        !failsStr subject_type (entityOf g r.subject_id).type_ &&
        !failsStr object_ (entityOf g r.object_id).label &&
        !failsStr object_type (entityOf g r.object_id).type_ &&
        !failsStr predicate r.predicate &&
        !(truthyQ min_confidence &&
          decide (r.confidence < min_confidence.getD 0)) &&
        !(truthyS after && decide (r.created_at < after.getD "")) &&
        !(truthyS before && decide (before.getD "" < r.created_at)) &&
        (!truthyM metadata_filter ||
          (metadata_filter.getD []).all
            (fun kv => alookup r.metadata kv.1 == some kv.2)))).map
        (fun r => (entityOf g r.subject_id, r, entityOf g r.object_id)) := by
  exact filterMap_guard _ _ _
    (queryStep_eq_guard g subject predicate object_ subject_type object_type
      min_confidence after before metadata_filter) g.relations

/-- Claim C10.  Every query filter is gated by Python truthiness, not by
presence: min_confidence 0.0 and empty-string label, predicate and type
filters behave exactly as if omitted, and with all other filters absent a
min_confidence of 0.0 returns every relation, whatever its confidence. -/
theorem query_truthiness_gating (g : KG α)
    (predicate object_ subject_type object_type : Option String)
    (subject : Option String) (min_confidence : Option α)
    (after before : Option String)
    (metadata_filter : Option (List (String × String))) :
    (query g subject predicate object_ subject_type object_type (some 0)
        after before metadata_filter =
      query g subject predicate object_ subject_type object_type none
        after before metadata_filter)
    ∧ (query g (some "") predicate object_ subject_type object_type
        min_confidence after before metadata_filter =
      query g none predicate object_ subject_type object_type
        min_confidence after before metadata_filter)
    ∧ (query g subject (some "") object_ subject_type object_type
        min_confidence after before metadata_filter =
      query g subject none object_ subject_type object_type
        min_confidence after before metadata_filter)
    ∧ (query g subject predicate (some "") subject_type object_type
        min_confidence after before metadata_filter =
      query g subject predicate none subject_type object_type
        min_confidence after before metadata_filter)
    ∧ (query g subject predicate object_ (some "") object_type
        min_confidence after before metadata_filter =
      query g subject predicate object_ none object_type
        min_confidence after before metadata_filter)
    ∧ (query g subject predicate object_ subject_type (some "")
        min_confidence after before metadata_filter =
      query g subject predicate object_ subject_type none
        min_confidence after before metadata_filter)
    ∧ ∀ r ∈ g.relations,
        (entityOf g r.subject_id, r, entityOf g r.object_id) ∈
          query g none none none none none (some 0) none none none := by
  refine ⟨?_, ?_, ?_, ?_, ?_, ?_, ?_⟩
  · unfold query
    exact List.filterMap_congr (fun r _ => by
      simp [queryStep, truthyQ])
  · unfold query
    exact List.filterMap_congr (fun r _ => by
      simp [queryStep, failsStr, truthyS, empty_string_isEmpty])
  · unfold query
    exact List.filterMap_congr (fun r _ => by
      simp [queryStep, failsStr, truthyS, empty_string_isEmpty])
  · unfold query
    exact List.filterMap_congr (fun r _ => by
      simp [queryStep, failsStr, truthyS, empty_string_isEmpty])
  · unfold query
    exact List.filterMap_congr (fun r _ => by
      simp [queryStep, failsStr, truthyS, empty_string_isEmpty])
  · unfold query
    exact List.filterMap_congr (fun r _ => by
      simp [queryStep, failsStr, truthyS, empty_string_isEmpty])
  · intro r hr
    unfold query
    refine List.mem_filterMap.mpr ⟨r, hr, ?_⟩
    simp [queryStep, failsStr, truthyS, truthyQ, truthyM]

/-- Negative-confidence relation of the C10 witness store. -/
def rC10 : Relation ℚ :=
  { subject_id := "i1"
    predicate := "p"
    object_id := "i2"
    confidence := -3
    created_at := "t0"
    source := none
    version := none
    metadata := []
    activation_count := 0
    last_activated := none
    cycles_since_last_activation := none }

/-- Store used to witness claim C10: holds one relation with negative
confidence. -/
def gC10 : KG ℚ :=
  { entities := [⟨"i1", "A", "T", []⟩, ⟨"i2", "B", "T", []⟩]
    relations := [rC10]
    label_to_id := [("A", "i1"), ("B", "i2")]
    hebbian_config := defaultConfig ℚ
    activation_window := []
    coactivation_counts := [] }

/-- Witness for claim C10: the negative-confidence relation of gC10 is
returned by a query with min_confidence 0.0. -/
theorem query_truthiness_gating_witness :
    (entityOf gC10 rC10.subject_id, rC10, entityOf gC10 rC10.object_id) ∈
      query gC10 none none none none none (some 0) none none none :=
  (query_truthiness_gating gC10 none none none none none none none none
    none).2.2.2.2.2.2 rC10 (by simp [gC10])

/-- Firing condition of the emergence loop for one counter entry, evaluated
against a fixed relation list: count at or above the threshold and no
connecting relation in either direction. -/
def emergenceFires (cfg : HebbianConfig α) (rels : List (Relation α))
    (pc : (String × String) × ℕ) : Bool :=
  decide (cfg.emergence_threshold ≤ pc.2) &&
    !(rels.any (connectsB pc.1.1 pc.1.2))

/-- An emergent relation for one unordered pair never connects a different
unordered pair. -/
theorem connectsB_mkEmergent (now c d a b : String) (count : ℕ)
    (h1 : (a, b) ≠ (c, d)) (h2 : (a, b) ≠ (d, c)) :
    connectsB c d (mkEmergent now a b count : Relation α) = false := by
  have h1' : ¬(a = c ∧ b = d) := fun h => h1 (by simp [h.1, h.2])
  have h2' : ¬(a = d ∧ b = c) := fun h => h2 (by simp [h.1, h.2])
  simp only [connectsB, mkEmergent, Bool.or_eq_false_iff,
    Bool.and_eq_false_iff, beq_eq_false_iff_ne, ne_eq]
  constructor
  · by_cases hac : a = c
    · exact Or.inr (fun hbd => h1' ⟨hac, hbd⟩)
    · exact Or.inl hac
  · by_cases had : a = d
    · exact Or.inr (fun hbc => h2' ⟨had, hbc⟩)
    · exact Or.inl had

/-- Unfolding of the emergence loop: with pairwise-distinct unordered counter
keys, the loop appends exactly the emergent relations of the firing entries
(judged against the initial relation list) and reports whether any fired.
`extra` generalizes over emergent relations already appended for keys not in
the remaining counter list. -/
theorem feLoop_eq (now : String) (cfg : HebbianConfig α) :
    ∀ (counts : List ((String × String) × ℕ)) (rels extra : List (Relation α)),
    counts.Pairwise (fun pc qc => pc.1 ≠ qc.1 ∧ pc.1 ≠ (qc.1.2, qc.1.1)) →
    (∀ r ∈ extra, ∃ a b cnt, r = (mkEmergent now a b cnt : Relation α) ∧
      ∀ pc ∈ counts, (a, b) ≠ pc.1 ∧ (a, b) ≠ (pc.1.2, pc.1.1)) →
    feLoop now cfg counts (rels ++ extra) =
      (rels ++ extra ++ (counts.filter (emergenceFires cfg rels)).map
          (fun pc => mkEmergent now pc.1.1 pc.1.2 pc.2),
        !(counts.filter (emergenceFires cfg rels)).isEmpty) := by
  intro counts
  induction counts with
  | nil =>
    intro rels extra _ _
    simp [feLoop]
  | cons pc rest ih =>
    intro rels extra hpw hextra
    obtain ⟨p, count⟩ := pc
    have hrestpw : rest.Pairwise
        (fun pc qc => pc.1 ≠ qc.1 ∧ pc.1 ≠ (qc.1.2, qc.1.1)) :=
      (List.pairwise_cons.mp hpw).2
    have hhead : ∀ qc ∈ rest,
        (p, count).1 ≠ qc.1 ∧ (p, count).1 ≠ (qc.1.2, qc.1.1) :=
      (List.pairwise_cons.mp hpw).1
    have hext : extra.any (connectsB p.1 p.2) = false := by
      rw [List.any_eq_false]
      intro r hrm
      obtain ⟨a, b, cnt, hform, hkeys⟩ := hextra r hrm
      have hk := hkeys (p, count) (by simp)
      rw [hform, connectsB_mkEmergent now p.1 p.2 a b cnt hk.1 hk.2]
      simp
    have hany : (rels ++ extra).any (connectsB p.1 p.2) =
        rels.any (connectsB p.1 p.2) := by
      rw [List.any_append, hext, Bool.or_false]
    have hcond : (decide (cfg.emergence_threshold ≤ count) &&
        !((rels ++ extra).any (connectsB p.1 p.2))) =
          emergenceFires cfg rels (p, count) := by
      rw [hany]; rfl
    rcases hfire : emergenceFires cfg rels (p, count) with _ | _
    · rw [feLoop]
      rw [hcond, hfire]
      simp only [Bool.false_eq_true, if_false]
      have hextra2 : ∀ r ∈ extra, ∃ a b cnt,
          r = (mkEmergent now a b cnt : Relation α) ∧
            ∀ qc ∈ rest, (a, b) ≠ qc.1 ∧ (a, b) ≠ (qc.1.2, qc.1.1) := by
        intro r hrm
        obtain ⟨a, b, cnt, hform, hkeys⟩ := hextra r hrm
        exact ⟨a, b, cnt, hform, fun qc hqc => hkeys qc (by simp [hqc])⟩
      rw [ih rels extra hrestpw hextra2]
      rw [List.filter_cons_of_neg (by simp [hfire])]
    · rw [feLoop]
      rw [hcond, hfire]
      simp only [if_true]
      have hassoc : (rels ++ extra) ++ [mkEmergent now p.1 p.2 count] =
          rels ++ (extra ++ [mkEmergent now p.1 p.2 count]) := by
        rw [List.append_assoc]
      rw [hassoc]
      have hextra2 : ∀ r ∈ extra ++ [(mkEmergent now p.1 p.2 count : Relation α)],
          ∃ a b cnt, r = (mkEmergent now a b cnt : Relation α) ∧
            ∀ qc ∈ rest, (a, b) ≠ qc.1 ∧ (a, b) ≠ (qc.1.2, qc.1.1) := by
        intro r hrm
        rcases List.mem_append.mp hrm with hold | hnew
        · obtain ⟨a, b, cnt, hform, hkeys⟩ := hextra r hold
          exact ⟨a, b, cnt, hform, fun qc hqc => hkeys qc (by simp [hqc])⟩
        · refine ⟨p.1, p.2, count, by simpa using hnew, ?_⟩
          intro qc hqc
          exact hhead qc hqc
      rw [ih rels (extra ++ [mkEmergent now p.1 p.2 count]) hrestpw hextra2]
      rw [List.filter_cons_of_pos (by simp [hfire])]
      simp [List.append_assoc]

/-- Claim C4.  With pairwise-distinct unordered counter keys (the invariant of
the canonicalized counter dict), form_emergent_connections appends exactly one
emergent relation per counter entry whose count reaches the threshold and
whose pair is not yet connected in either direction; each created relation
carries predicate co_occurs_with, source hebbian_emergence, version emergent
and confidence min(0.5, count * 0.1); and the counters are cleared exactly
when at least one edge was created. -/
theorem emergent_connections_spec (g : KG α) (now : String)
    (hkeys : g.coactivation_counts.Pairwise
      (fun pc qc => pc.1 ≠ qc.1 ∧ pc.1 ≠ (qc.1.2, qc.1.1))) :
    (form_emergent_connections now g).relations =
      g.relations ++
        (g.coactivation_counts.filter
            (emergenceFires g.hebbian_config g.relations)).map
          (fun pc => mkEmergent now pc.1.1 pc.1.2 pc.2)
    ∧ (form_emergent_connections now g).coactivation_counts =
        (if (g.coactivation_counts.filter
            (emergenceFires g.hebbian_config g.relations)).isEmpty then
          g.coactivation_counts
        else [])
    ∧ ∀ a b count,
        (mkEmergent now a b count : Relation α).predicate = "co_occurs_with"
        ∧ (mkEmergent now a b count : Relation α).source =
            some "hebbian_emergence"
        ∧ (mkEmergent now a b count : Relation α).version = some "emergent"
        ∧ (mkEmergent now a b count : Relation α).confidence =
            min (1 / 2 : α) ((count : α) * (1 / 10)) := by
  have hloop := feLoop_eq now g.hebbian_config g.coactivation_counts
    g.relations [] hkeys (by intro r hrm; simp at hrm)
  rw [List.append_nil] at hloop
  refine ⟨?_, ?_, fun a b count => ⟨rfl, rfl, rfl, rfl⟩⟩
  · rw [form_emergent_connections, hloop]
  · rw [form_emergent_connections, hloop]
    rcases hempty : (g.coactivation_counts.filter
        (emergenceFires g.hebbian_config g.relations)).isEmpty with _ | _ <;>
      simp [hempty]

/-- Store used to witness claim C4: entities C, D, E, F with one existing
C-D edge, counters (C,D) at 3 (blocked by the existing edge), (C,F) at 4
(fires) and (E,F) at 1 (below threshold). -/
def gC4 : KG ℚ :=
  { entities := [⟨"c1", "C", "T", []⟩, ⟨"d1", "D", "T", []⟩,
      ⟨"e1", "E", "T", []⟩, ⟨"f1", "F", "T", []⟩]
    relations :=
      [{ subject_id := "c1"
         predicate := "p"
         object_id := "d1"
         confidence := 1
         created_at := "t0"
         source := none
         version := none
         metadata := []
         activation_count := 0
         last_activated := none
         cycles_since_last_activation := none }]
    label_to_id := [("C", "c1"), ("D", "d1"), ("E", "e1"), ("F", "f1")]
    hebbian_config := defaultConfig ℚ
    activation_window := []
    coactivation_counts := [(("c1", "d1"), 3), (("c1", "f1"), 4),
      (("e1", "f1"), 1)] }

/-- Witness for claim C4 on gC4: exactly the (C,F) pair fires and the
counters are cleared. -/
theorem emergent_connections_spec_witness :
    (form_emergent_connections "t1" gC4).relations =
      gC4.relations ++
        (gC4.coactivation_counts.filter
            (emergenceFires gC4.hebbian_config gC4.relations)).map
          (fun pc => mkEmergent "t1" pc.1.1 pc.1.2 pc.2)
    ∧ (form_emergent_connections "t1" gC4).coactivation_counts =
        (if (gC4.coactivation_counts.filter
            (emergenceFires gC4.hebbian_config gC4.relations)).isEmpty then
          gC4.coactivation_counts
        else []) :=
  ⟨(emergent_connections_spec gC4 "t1" (by decide)).1,
    (emergent_connections_spec gC4 "t1" (by decide)).2.1⟩

/-- Splitting a character list without underscores yields that list alone. -/
theorem splitUnderscore_of_not_mem (l : List Char) (h : '_' ∉ l) :
    splitUnderscore l = [l] := by
  induction l with
  | nil => rfl
  | cons c rest ih =>
    have hc : ¬c = '_' := fun hcu => h (by simp [hcu])
    have hr : '_' ∉ rest := fun hm => h (by simp [hm])
    rw [splitUnderscore]
    simp only [hc, if_false, ih hr]

/-- Splitting a join of two underscore-free pieces recovers both pieces. -/
theorem splitUnderscore_append (a b : List Char) (ha : '_' ∉ a)
    (hb : '_' ∉ b) : splitUnderscore (a ++ '_' :: b) = [a, b] := by
  induction a with
  | nil =>
    rw [List.nil_append, splitUnderscore]
    simp [splitUnderscore_of_not_mem b hb]
  | cons c rest ih =>
    have hc : ¬c = '_' := fun hcu => ha (by simp [hcu])
    have hr : '_' ∉ rest := fun hm => ha (by simp [hm])
    rw [List.cons_append, splitUnderscore]
    simp only [hc, if_false, ih hr]

/-- The composite-key codec is the identity on pairs of underscore-free
ids. -/
theorem parseKey_joinKey (a b : String) (ha : '_' ∉ a.data)
    (hb : '_' ∉ b.data) : parseKey (joinKey (a, b)) = some (a, b) := by
  have hdata : (joinKey (a, b)).data = a.data ++ '_' :: b.data := by
    rw [joinKey]
    rw [String.data_append, String.data_append]
    simp
  rw [parseKey, hdata, splitUnderscore_append a.data b.data ha hb]

/-- Restoring the serialized counter list of underscore-free id pairs
reproduces it exactly. -/
theorem parseCounts_map (l : List ((String × String) × ℕ))
    (h : ∀ kv ∈ l, '_' ∉ kv.1.1.data ∧ '_' ∉ kv.1.2.data) :
    parseCounts (l.map (fun kv => (joinKey kv.1, kv.2))) = some l := by
  induction l with
  | nil => rfl
  | cons kv rest ih =>
    have hkv := h kv (by simp)
    have hrest : ∀ kv2 ∈ rest, '_' ∉ kv2.1.1.data ∧ '_' ∉ kv2.1.2.data :=
      fun kv2 hm => h kv2 (by simp [hm])
    rw [List.map_cons, parseCounts]
    rw [show joinKey kv.1 = joinKey (kv.1.1, kv.1.2) from rfl]
    rw [parseKey_joinKey kv.1.1 kv.1.2 hkv.1 hkv.2, ih hrest]

/-- Folding dict insertion over entities with pairwise-distinct ids appends
them in order. -/
theorem foldl_entInsert (l : List Entity) :
    ∀ acc : List Entity, l.Pairwise (fun a b => a.id ≠ b.id) →
    (∀ e ∈ l, ∀ x ∈ acc, x.id ≠ e.id) → l.foldl entInsert acc = acc ++ l := by
  induction l with
  | nil => intro acc _ _; simp
  | cons e rest ih =>
    intro acc hpw hacc
    have hnew : acc.any (fun x => x.id == e.id) = false := by
      rw [List.any_eq_false]
      intro x hx
      simp only [beq_iff_eq]
      exact hacc e (by simp) x hx
    have hstep : entInsert acc e = acc ++ [e] := by
      rw [entInsert, hnew]
      simp
    rw [List.foldl_cons, hstep]
    rw [ih (acc ++ [e]) (List.pairwise_cons.mp hpw).2 ?_]
    · simp
    · intro e2 he2 x hx
      rcases List.mem_append.mp hx with hold | hxe
      · exact hacc e2 (by simp [he2]) x hold
      · rw [List.mem_singleton.mp hxe]
        exact (List.pairwise_cons.mp hpw).1 e2 he2

/-- Claim C6.  With the ids the system generates (uuid4 strings never contain
an underscore, and the entity dict has pairwise-distinct id keys), save
followed by load into a fresh store reproduces the entity count, the relation
count, every relation byte for byte (hence its confidence and
activation_count), and the co-activation counters through the composite-key
codec. -/
theorem save_load_roundtrip (g : KG α)
    (hids : g.entities.Pairwise (fun a b => a.id ≠ b.id))
    (hkeys : ∀ kv ∈ g.coactivation_counts,
      '_' ∉ kv.1.1.data ∧ '_' ∉ kv.1.2.data) :
    ∃ g2 : KG α, load_from_json (save_to_json g) = some g2
      ∧ g2.entities.length = g.entities.length
      ∧ g2.relations.length = g.relations.length
      ∧ g2.relations.map (fun r => r.confidence) =
          g.relations.map (fun r => r.confidence)
      ∧ g2.relations.map (fun r => r.activation_count) =
          g.relations.map (fun r => r.activation_count)
      ∧ g2.coactivation_counts = g.coactivation_counts := by
  have hcounts : parseCounts ((save_to_json g).coactivation_counts) =
      some g.coactivation_counts := by
    rw [save_to_json]
    exact parseCounts_map g.coactivation_counts hkeys
  have hents : g.entities.foldl entInsert [] = g.entities := by
    simpa using foldl_entInsert g.entities [] hids (by simp)
  refine ⟨{ entities := g.entities
            relations := g.relations
            label_to_id :=
              g.entities.foldl (fun acc e => dictInsert acc e.label e.id) []
            hebbian_config := g.hebbian_config
            activation_window := []
            coactivation_counts := g.coactivation_counts },
    ?_, rfl, rfl, rfl, rfl, rfl⟩
  rw [load_from_json, hcounts]
  simp only [save_to_json, hents]

/-- Store used to witness claim C6: two entities, one relation, one
co-activation counter. -/
def gC6 : KG ℚ :=
  { entities := [⟨"i1", "A", "T", []⟩, ⟨"i2", "B", "T", []⟩]
    relations :=
      [{ subject_id := "i1"
         predicate := "p"
         object_id := "i2"
         confidence := 1
         created_at := "t0"
         source := none
         version := none
         metadata := []
         activation_count := 7
         last_activated := some "t1"
         cycles_since_last_activation := some 2 }]
    label_to_id := [("A", "i1"), ("B", "i2")]
    hebbian_config := defaultConfig ℚ
    activation_window := []
    coactivation_counts := [(("i1", "i2"), 2)] }

/-- Witness for claim C6: the round trip on gC6 restores counts, relations
and counters. -/
theorem save_load_roundtrip_witness :
    ∃ g2 : KG ℚ, load_from_json (save_to_json gC6) = some g2
      ∧ g2.entities.length = gC6.entities.length
      ∧ g2.relations.length = gC6.relations.length
      ∧ g2.relations.map (fun r => r.confidence) =
          gC6.relations.map (fun r => r.confidence)
      ∧ g2.relations.map (fun r => r.activation_count) =
          gC6.relations.map (fun r => r.activation_count)
      ∧ g2.coactivation_counts = gC6.coactivation_counts :=
  save_load_roundtrip gC6 (by decide) (by decide)

/-- Iterated activation of one triple: `activateN ts s p o g n` performs n
successive activate_relation calls, the k-th stamped with timestamp `ts k`. -/
def activateN (ts : ℕ → String) (s p o : String) (g : KG α) : ℕ → KG α
  | 0 => g
  | n + 1 => activate_relation (ts n) s p o (activateN ts s p o g n)

/-- Store reachable through the public API whose relation holds confidence 2,
above the default max_strength: add_relation performs no clamping. -/
def gBad : KG ℚ :=
  add_relation "i1" "i2" "t0" "A" "p" "B" "T" "T" 2 none none
    (emptyKG ℚ (defaultConfig ℚ))

/-- A rewrite that preserves the search predicate commutes with find? through
updateFirst. -/
theorem find?_updateFirst {β : Type} (q : β → Bool) (f : β → β)
    (hq : ∀ x, q (f x) = q x) (l : List β) :
    (updateFirst q f l).find? q = (l.find? q).map f := by
  induction l with
  | nil => rfl
  | cons x xs ih =>
    rcases hx : q x with _ | _
    · rw [updateFirst]
      simp only [hx, Bool.false_eq_true, if_false]
      rw [List.find?_cons_of_neg _ (by simp [hx]),
        List.find?_cons_of_neg _ (by simp [hx]), ih]
    · rw [updateFirst]
      simp only [hx, if_true]
      rw [List.find?_cons_of_pos _ (by simp [hq, hx]),
        List.find?_cons_of_pos _ hx]
      rfl

/-- strengthenRel does not change the triple a relation matches. -/
theorem matchesTriple_strengthenRel (cfg : HebbianConfig α) (now : String)
    (sid p oid : String) (r : Relation α) :
    matchesTriple sid p oid (strengthenRel cfg now r) =
      matchesTriple sid p oid r := rfl

/-- activate_relation never changes the label index or the configuration. -/
theorem activate_relation_frame (now s p o : String) (g : KG α) :
    (activate_relation now s p o g).label_to_id = g.label_to_id ∧
      (activate_relation now s p o g).hebbian_config = g.hebbian_config := by
  rw [activate_relation]
  rcases alookup g.label_to_id s with _ | sid <;>
    rcases alookup g.label_to_id o with _ | oid <;>
      simp [truthyS] <;> split <;> simp

/-- One activation step rewrites the first matching confidence by
strengthenVal, as observed through get_edge_strength. -/
theorem get_edge_strength_step (g : KG α) (now s p o sid oid : String)
    (hs : alookup g.label_to_id s = some sid) (hs0 : sid.isEmpty = false)
    (ho : alookup g.label_to_id o = some oid) (ho0 : oid.isEmpty = false)
    (hex : ∃ r ∈ g.relations, matchesTriple sid p oid r = true) :
    get_edge_strength s p o (activate_relation now s p o g) =
        strengthenVal g.hebbian_config (get_edge_strength s p o g)
      ∧ ∃ r2 ∈ (activate_relation now s p o g).relations,
          matchesTriple sid p oid r2 = true := by
  obtain ⟨r0, hr0m, hr0⟩ := hex
  have hfind : (g.relations.find? (matchesTriple sid p oid)).isSome := by
    rcases hf : g.relations.find? (matchesTriple sid p oid) with _ | r1
    · exact absurd (List.find?_eq_none.mp hf r0 hr0m) (by simp [hr0])
    · rfl
  obtain ⟨r1, hf⟩ := Option.isSome_iff_exists.mp hfind
  have hact : (activate_relation now s p o g).relations =
      updateFirst (matchesTriple sid p oid)
        (strengthenRel g.hebbian_config now) g.relations := by
    rw [activate_relation, hs, ho]
    simp only [truthyS, hs0, ho0, Bool.not_false, Bool.false_or,
      Bool.or_false, Option.getD_some]
    rw [if_neg (by simp)]
  have hfind2 : (activate_relation now s p o g).relations.find?
      (matchesTriple sid p oid) =
        some (strengthenRel g.hebbian_config now r1) := by
    rw [hact, find?_updateFirst _ _
      (matchesTriple_strengthenRel g.hebbian_config now sid p oid), hf]
    rfl
  constructor
  · rw [get_edge_strength, get_edge_strength,
      (activate_relation_frame now s p o g).1, hs, ho]
    simp only [truthyS, hs0, ho0, Bool.not_false, Bool.false_or,
      Bool.or_false, Option.getD_some]
    rw [if_neg (by simp), if_neg (by simp)]
    rw [hfind2, hf]
    rfl
  · refine ⟨strengthenRel g.hebbian_config now r1, ?_, ?_⟩
    · exact List.mem_of_find?_eq_some hfind2
    · rw [matchesTriple_strengthenRel]
      exact List.find?_some hf

/-- get_edge_strength reads the confidence of the first match. -/
theorem get_edge_strength_of_find (g : KG α) (s p o sid oid : String)
    (hs : alookup g.label_to_id s = some sid) (hs0 : sid.isEmpty = false)
    (ho : alookup g.label_to_id o = some oid) (ho0 : oid.isEmpty = false)
    (r1 : Relation α)
    (hf : g.relations.find? (matchesTriple sid p oid) = some r1) :
    get_edge_strength s p o g = r1.confidence := by
  rw [get_edge_strength, hs, ho]
  simp only [truthyS, hs0, ho0, Bool.not_false, Bool.false_or,
    Bool.or_false, Option.getD_some]
  rw [if_neg (by simp), hf]

/-- Strengthening stays at or below max_strength. -/
theorem strengthenVal_le_max (cfg : HebbianConfig α) (c : α) :
    strengthenVal cfg c ≤ cfg.max_strength := min_le_left _ _

/-- Strengthening does not decrease an in-range confidence. -/
theorem le_strengthenVal (cfg : HebbianConfig α) (c : α)
    (hlr : 0 ≤ cfg.learning_rate) (hc : c ≤ cfg.max_strength) :
    c ≤ strengthenVal cfg c := by
  refine le_min hc ?_
  nlinarith

/-- Below max_strength the min clamp is inactive. -/
theorem strengthenVal_eq (cfg : HebbianConfig α) (c : α)
    (hlr : cfg.learning_rate ≤ 1) (hc : c ≤ cfg.max_strength) :
    strengthenVal cfg c =
      c + cfg.learning_rate * (cfg.max_strength - c) := by
  refine min_eq_right ?_
  nlinarith

/-- The single relation stored in gBad. -/
def relBad : Relation ℚ :=
  { subject_id := "i1"
    predicate := "p"
    object_id := "i2"
    confidence := 2
    created_at := "t0"
    source := none
    version := none
    metadata := []
    activation_count := 0
    last_activated := none
    cycles_since_last_activation := none }

/-- Counterexample to claim C7 as stated: on the API-reachable store gBad the
confidence sequence under repeated activation is not non-decreasing (and not
bounded by max_strength) — the first activation strictly lowers the stored
confidence from 2 to 1. -/
theorem activation_monotone_counterexample :
    get_edge_strength "A" "p" "B"
        (activate_relation "t1" "A" "p" "B" gBad) <
      get_edge_strength "A" "p" "B" gBad := by
  have hs : alookup gBad.label_to_id "A" = some "i1" := rfl
  have ho : alookup gBad.label_to_id "B" = some "i2" := rfl
  have hf : gBad.relations.find? (matchesTriple "i1" "p" "i2") =
      some relBad := rfl
  have h0 : get_edge_strength "A" "p" "B" gBad = 2 :=
    get_edge_strength_of_find gBad "A" "p" "B" "i1" "i2" hs rfl ho rfl
      relBad hf
  have h1 := (get_edge_strength_step gBad "t1" "A" "p" "B" "i1" "i2" hs rfl
    ho rfl ⟨relBad, List.mem_of_find?_eq_some hf, List.find?_some hf⟩).1
  rw [h1, h0]
  have hcfg : gBad.hebbian_config = defaultConfig ℚ := rfl
  rw [hcfg]
  norm_num [strengthenVal, defaultConfig, min_def]

/-- Claim C7 as amended.  Provided the confidence of the relation does not exceed
max_strength and the learning rate lies strictly between 0 and 1 (as the
default 0.1 does), repeated activation of a triple yields a confidence
sequence that is non-decreasing, bounded above by max_strength, and has
strictly shrinking increments while confidence is below max_strength. -/
theorem activation_monotone_amended (g : KG α) (ts : ℕ → String)
    (s p o sid oid : String)
    (hs : alookup g.label_to_id s = some sid) (hs0 : sid.isEmpty = false)
    (ho : alookup g.label_to_id o = some oid) (ho0 : oid.isEmpty = false)
    (hex : ∃ r ∈ g.relations, matchesTriple sid p oid r = true)
    (hlr0 : 0 < g.hebbian_config.learning_rate)
    (hlr1 : g.hebbian_config.learning_rate < 1)
    (hc0 : get_edge_strength s p o g ≤ g.hebbian_config.max_strength) :
    ∀ n,
      get_edge_strength s p o (activateN ts s p o g n) ≤
          get_edge_strength s p o (activateN ts s p o g (n + 1))
      ∧ get_edge_strength s p o (activateN ts s p o g n) ≤
          g.hebbian_config.max_strength
      ∧ (get_edge_strength s p o (activateN ts s p o g n) <
            g.hebbian_config.max_strength →
          get_edge_strength s p o (activateN ts s p o g (n + 2)) -
              get_edge_strength s p o (activateN ts s p o g (n + 1)) <
            get_edge_strength s p o (activateN ts s p o g (n + 1)) -
              get_edge_strength s p o (activateN ts s p o g n)) := by
  have hinv : ∀ n, (activateN ts s p o g n).label_to_id = g.label_to_id
      ∧ (activateN ts s p o g n).hebbian_config = g.hebbian_config
      ∧ ∃ r ∈ (activateN ts s p o g n).relations,
          matchesTriple sid p oid r = true := by
    intro n
    induction n with
    | zero => exact ⟨rfl, rfl, hex⟩
    | succ k ih =>
      refine ⟨?_, ?_, ?_⟩
      · rw [activateN,
          (activate_relation_frame (ts k) s p o (activateN ts s p o g k)).1,
          ih.1]
      · rw [activateN,
          (activate_relation_frame (ts k) s p o (activateN ts s p o g k)).2,
          ih.2.1]
      · rw [activateN]
        exact (get_edge_strength_step (activateN ts s p o g k) (ts k) s p o
          sid oid (ih.1 ▸ hs) hs0 (ih.1 ▸ ho) ho0 ih.2.2).2
  have hrec : ∀ n, get_edge_strength s p o (activateN ts s p o g (n + 1)) =
      strengthenVal g.hebbian_config
        (get_edge_strength s p o (activateN ts s p o g n)) := by
    intro n
    have h := (get_edge_strength_step (activateN ts s p o g n) (ts n) s p o
      sid oid ((hinv n).1 ▸ hs) hs0 ((hinv n).1 ▸ ho) ho0 (hinv n).2.2).1
    rw [activateN, h, (hinv n).2.1]
  have hbound : ∀ n, get_edge_strength s p o (activateN ts s p o g n) ≤
      g.hebbian_config.max_strength := by
    intro n
    cases n with
    | zero => exact hc0
    | succ k =>
      rw [hrec k]
      exact strengthenVal_le_max g.hebbian_config _
  intro n
  refine ⟨?_, hbound n, ?_⟩
  · rw [hrec n]
    exact le_strengthenVal g.hebbian_config _ (le_of_lt hlr0) (hbound n)
  · intro hlt
    have e1 : get_edge_strength s p o (activateN ts s p o g (n + 1)) =
        get_edge_strength s p o (activateN ts s p o g n) +
          g.hebbian_config.learning_rate *
            (g.hebbian_config.max_strength -
              get_edge_strength s p o (activateN ts s p o g n)) := by
      rw [hrec n,
        strengthenVal_eq g.hebbian_config _ (le_of_lt hlr1) (hbound n)]
    have e2 : get_edge_strength s p o (activateN ts s p o g (n + 2)) =
        get_edge_strength s p o (activateN ts s p o g (n + 1)) +
          g.hebbian_config.learning_rate *
            (g.hebbian_config.max_strength -
              get_edge_strength s p o (activateN ts s p o g (n + 1))) := by
      rw [hrec (n + 1),
        strengthenVal_eq g.hebbian_config _ (le_of_lt hlr1) (hbound (n + 1))]
    nlinarith [e1, e2, hlt, hlr0, hlr1,
      mul_pos (mul_pos hlr0 hlr0)
        (sub_pos.mpr hlt)]

/-- The relation of the C7 witness store, at confidence one half. -/
def relC7 : Relation ℚ :=
  { subject_id := "i1"
    predicate := "p"
    object_id := "i2"
    confidence := 1 / 2
    created_at := "t0"
    source := none
    version := none
    metadata := []
    activation_count := 0
    last_activated := none
    cycles_since_last_activation := none }

/-- Store used to witness the amended claim C7. -/
def gC7 : KG ℚ :=
  { entities := [⟨"i1", "A", "T", []⟩, ⟨"i2", "B", "T", []⟩]
    relations := [relC7]
    label_to_id := [("A", "i1"), ("B", "i2")]
    hebbian_config := defaultConfig ℚ
    activation_window := []
    coactivation_counts := [] }

/-- Witness for the amended claim C7 at n = 1 on gC7. -/
theorem activation_monotone_amended_witness :
    get_edge_strength "A" "p" "B" (activateN (fun _ => "t") "A" "p" "B" gC7 1) ≤
        get_edge_strength "A" "p" "B" (activateN (fun _ => "t") "A" "p" "B" gC7 2)
      ∧ get_edge_strength "A" "p" "B" (activateN (fun _ => "t") "A" "p" "B" gC7 1) ≤
          gC7.hebbian_config.max_strength
      ∧ (get_edge_strength "A" "p" "B" (activateN (fun _ => "t") "A" "p" "B" gC7 1) <
            gC7.hebbian_config.max_strength →
          get_edge_strength "A" "p" "B" (activateN (fun _ => "t") "A" "p" "B" gC7 3) -
              get_edge_strength "A" "p" "B" (activateN (fun _ => "t") "A" "p" "B" gC7 2) <
            get_edge_strength "A" "p" "B" (activateN (fun _ => "t") "A" "p" "B" gC7 2) -
              get_edge_strength "A" "p" "B" (activateN (fun _ => "t") "A" "p" "B" gC7 1)) :=
  activation_monotone_amended gC7 (fun _ => "t") "A" "p" "B" "i1" "i2" rfl rfl
    rfl rfl ⟨relC7, by simp [gC7], rfl⟩ (by norm_num [gC7, defaultConfig])
    (by norm_num [gC7, defaultConfig])
    (by rw [show get_edge_strength "A" "p" "B" gC7 = 1 / 2 from rfl]
        norm_num [gC7, defaultConfig]) 1

/-- Invariant of claim C8: every stored confidence lies within
[min_strength, max_strength] of the active configuration. -/
def confInRange (g : KG α) : Prop :=
  ∀ r ∈ g.relations, g.hebbian_config.min_strength ≤ r.confidence ∧
    r.confidence ≤ g.hebbian_config.max_strength

/-- Counterexample to claim C8 as stated: gBad is reached from an empty store
by one addRelation call, yet the confidence 2 of its relation exceeds the default
max_strength 1 — addRelation never clamps. -/
theorem confidence_invariant_counterexample : ¬ confInRange gBad := by
  intro h
  have hm : relBad ∈ gBad.relations := by
    rw [show gBad.relations = [relBad] from rfl]
    simp
  have h2 := (h relBad hm).2
  rw [show gBad.hebbian_config = defaultConfig ℚ from rfl] at h2
  norm_num [defaultConfig, relBad] at h2

/-- add_entity never touches relations or the configuration. -/
theorem add_entity_frame (fid l t : String) (props : List (String × String))
    (g : KG α) : (add_entity fid l t props g).2.relations = g.relations ∧
      (add_entity fid l t props g).2.hebbian_config = g.hebbian_config := by
  simp only [add_entity]
  rcases h : alookup g.label_to_id l with _ | i <;> simp [h]

/-- Members of updateFirst come from the original list, possibly rewritten. -/
theorem mem_updateFirst {β : Type} (q : β → Bool) (f : β → β)
    (l : List β) (x : β) (hx : x ∈ updateFirst q f l) :
    x ∈ l ∨ ∃ y ∈ l, x = f y := by
  induction l with
  | nil => simp [updateFirst] at hx
  | cons a as ih =>
    rw [updateFirst] at hx
    rcases ha : q a with _ | _
    · rw [ha] at hx
      simp only [Bool.false_eq_true, if_false, List.mem_cons] at hx
      rcases hx with hxa | hxs
      · exact Or.inl (by simp [hxa])
      · rcases ih hxs with hl | ⟨y, hy, hxy⟩
        · exact Or.inl (by simp [hl])
        · exact Or.inr ⟨y, by simp [hy], hxy⟩
    · rw [ha] at hx
      simp only [if_true, List.mem_cons] at hx
      rcases hx with hxa | hxs
      · exact Or.inr ⟨a, by simp, hxa⟩
      · exact Or.inl (by simp [hxs])

/-- Members of the emergence loop output come from the seed list or are
emergent relations whose count reached the threshold. -/
theorem mem_feLoop (now : String) (cfg : HebbianConfig α) :
    ∀ (counts : List ((String × String) × ℕ)) (rels : List (Relation α))
      (x : Relation α), x ∈ (feLoop now cfg counts rels).1 →
      x ∈ rels ∨ ∃ a b cnt, cfg.emergence_threshold ≤ cnt ∧
        x = (mkEmergent now a b cnt : Relation α) := by
  intro counts
  induction counts with
  | nil =>
    intro rels x hx
    exact Or.inl hx
  | cons pc rest ih =>
    intro rels x hx
    obtain ⟨p, count⟩ := pc
    rw [feLoop] at hx
    rcases hcond : (decide (cfg.emergence_threshold ≤ count) &&
        !(rels.any (connectsB p.1 p.2))) with _ | _
    · rw [hcond] at hx
      simp only [Bool.false_eq_true, if_false] at hx
      exact ih rels x hx
    · rw [hcond] at hx
      simp only [if_true] at hx
      rcases ih (rels ++ [mkEmergent now p.1 p.2 count]) x hx with hl | hr
      · rcases List.mem_append.mp hl with hl2 | hnew
        · exact Or.inl hl2
        · refine Or.inr ⟨p.1, p.2, count, ?_, by simpa using hnew⟩
          have := (Bool.and_eq_true _ _).mp hcond
          exact of_decide_eq_true this.1
      · exact Or.inr hr

/-- Decay never raises a confidence when the decay rate is non-negative and
the exponential factor stays at or below 1. -/
theorem decayRel_conf_le (expn : α → α) (cfg : HebbianConfig α)
    (r : Relation α) (hdr0 : 0 ≤ cfg.decay_rate)
    (hexp : ∀ n : ℕ, 0 < n → expn (-(n : α) / 30) ≤ 1) :
    (decayRel expn cfg r).confidence ≤ r.confidence := by
  unfold decayRel
  rcases hla : r.last_activated with _ | t <;>
    rcases hc : r.cycles_since_last_activation with _ | c <;> simp
  by_cases hpos : 0 < c
  · simp only [hpos, if_true]
    have h1 : expn (-(c : α) / 30) ≤ 1 := hexp c hpos
    have h2 : 0 ≤ cfg.decay_rate * (1 - expn (-(c : α) / 30)) :=
      mul_nonneg hdr0 (by linarith)
    show r.confidence - cfg.decay_rate * (1 - expn (-(c : α) / 30)) ≤
      r.confidence
    linarith
  · simp [hpos]

/-- Claim C8 as amended.  Under the natural configuration side conditions
(all satisfied by the default configuration) and with addRelation restricted
to confidences inside [min_strength, max_strength], a store satisfying the
confidence range invariant still satisfies it immediately after every
addRelation, activateRelation, formEmergentConnections and applyTemporalDecay
call. -/
theorem confidence_invariant_amended (expn : α → α) (g : KG α)
    (hexp : ∀ n : ℕ, 0 < n → expn (-(n : α) / 30) ≤ 1)
    (hlr0 : 0 ≤ g.hebbian_config.learning_rate)
    (hdr0 : 0 ≤ g.hebbian_config.decay_rate)
    (hmm : g.hebbian_config.min_strength ≤ g.hebbian_config.max_strength)
    (hhalf : (1 / 2 : α) ≤ g.hebbian_config.max_strength)
    (hthr : g.hebbian_config.min_strength ≤
      min (1 / 2 : α)
        ((g.hebbian_config.emergence_threshold : α) * (1 / 10)))
    (hinv : confInRange g) :
    (∀ f1 f2 now s p o st ot c src ver,
        g.hebbian_config.min_strength ≤ c →
        c ≤ g.hebbian_config.max_strength →
        confInRange (add_relation f1 f2 now s p o st ot c src ver g))
    ∧ (∀ now s p o, confInRange (activate_relation now s p o g))
    ∧ (∀ now, confInRange (form_emergent_connections now g))
    ∧ confInRange (apply_temporal_decay expn g) := by
  refine ⟨?_, ?_, ?_, ?_⟩
  · intro f1 f2 now s p o st ot c src ver hcl hcu
    intro r hr
    rw [add_relation] at hr ⊢
    have hf1 := add_entity_frame f1 s st [] g
    have hf2 := add_entity_frame f2 o ot [] (add_entity f1 s st [] g).2
    simp only [hf2.2, hf1.2]
    simp only [List.mem_append, hf2.1, hf1.1, List.mem_singleton] at hr
    rcases hr with hold | hnew
    · exact hinv r hold
    · rw [hnew]
      exact ⟨hcl, hcu⟩
  · intro now s p o
    intro r hr
    have hframe := activate_relation_frame now s p o g
    rw [hframe.2]
    rw [activate_relation] at hr
    by_cases hb : (!truthyS (alookup g.label_to_id s) ||
        !truthyS (alookup g.label_to_id o)) = true
    · rw [if_pos hb] at hr
      exact hinv r hr
    · rw [if_neg hb] at hr
      simp only [] at hr
      rcases mem_updateFirst _ _ _ r hr with hold | ⟨y, hy, hry⟩
      · exact hinv r hold
      · rw [hry]
        have hyb := hinv y hy
        refine ⟨?_, strengthenVal_le_max g.hebbian_config y.confidence⟩
        exact le_trans hyb.1
          (le_strengthenVal g.hebbian_config y.confidence hlr0 hyb.2)
  · intro now
    intro r hr
    rw [show (form_emergent_connections now g).hebbian_config =
      g.hebbian_config from rfl]
    rw [form_emergent_connections] at hr
    simp only [] at hr
    rcases mem_feLoop now g.hebbian_config g.coactivation_counts g.relations
        r hr with hold | ⟨a, b, cnt, hcnt, hform⟩
    · exact hinv r hold
    · rw [hform]
      have hconf : (mkEmergent now a b cnt : Relation α).confidence =
          min (1 / 2 : α) ((cnt : α) * (1 / 10)) := rfl
      rw [hconf]
      constructor
      · refine le_min (le_trans hthr (min_le_left _ _)) ?_
        refine le_trans hthr (le_trans (min_le_right _ _) ?_)
        have hcast : ((g.hebbian_config.emergence_threshold : α)) ≤ (cnt : α) :=
          Nat.cast_le.mpr hcnt
        nlinarith
      · exact le_trans (min_le_left _ _) hhalf
  · intro r hr
    rw [show (apply_temporal_decay expn g).hebbian_config =
      g.hebbian_config from rfl]
    rw [apply_temporal_decay] at hr
    simp only [List.mem_filter, List.mem_map] at hr
    obtain ⟨⟨y, hy, hry⟩, hpass⟩ := hr
    have hyb := hinv y hy
    have hle : r.confidence ≤ y.confidence := by
      rw [← hry]
      exact decayRel_conf_le expn g.hebbian_config y hdr0 hexp
    rcases Bool.or_eq_true _ _ |>.mp hpass with hstr | hnone
    · exact ⟨of_decide_eq_true hstr, le_trans hle hyb.2⟩
    · have hla : y.last_activated = none := by
        have := Option.isNone_iff_eq_none.mp hnone
        rw [← hry, decayRel_last_activated] at this
        exact this
      have hid : decayRel expn g.hebbian_config y = y :=
        decayRel_of_never_activated expn g.hebbian_config y hla
      rw [← hry, hid]
      exact hyb

/-- Witness for the amended claim C8 on gC7: the invariant survives an
in-range addRelation and a decay pass. -/
theorem confidence_invariant_amended_witness :
    confInRange
        (add_relation "i9" "i9b" "t" "P" "q" "Q" "T" "T" (1 / 2 : ℚ) none none
          gC7)
    ∧ confInRange (apply_temporal_decay (fun _ => (0 : ℚ)) gC7) := by
  have h := confidence_invariant_amended (fun _ => (0 : ℚ)) gC7
    (by intro n _; norm_num)
    (by norm_num [gC7, defaultConfig])
    (by norm_num [gC7, defaultConfig])
    (by norm_num [gC7, defaultConfig])
    (by norm_num [gC7, defaultConfig])
    (by norm_num [gC7, defaultConfig, min_def])
    (by intro r hr
        rw [show gC7.relations = [relC7] from rfl] at hr
        rw [List.mem_singleton.mp hr]
        norm_num [gC7, relC7, defaultConfig])
  exact ⟨h.1 "i9" "i9b" "t" "P" "q" "Q" "T" "T" (1 / 2 : ℚ) none none
      (by norm_num [gC7, defaultConfig]) (by norm_num [gC7, defaultConfig]),
    h.2.2.2⟩

end Kairos
